import Mathlib

/-!
Verification of the spatial-analysis pipeline of `processing/pipeline.py`
(class `ProjectData`) and the regression fallback of `app.py`.

Shallow embedding conventions:
* Python floats are modelled as exact numbers: coordinates, extents and
  attribute values as `ℚ`; quantities produced with `sqrt`/`**`
  (IDW weights, OLS standard errors) as `ℝ`.
* A float `NaN`, or a missing attribute, is modelled as `none : Option _`
  (the code treats the two alike: `dropna`, `np.isfinite` masks, skipping
  at load time).  Infinities are not modelled.
* Fallible code returns `Except String _`; a raised Python exception is
  the `.error` case.
* External numeric libraries are modelled by their documented behaviour:
  `scipy.spatial.cKDTree.query` returns the `m` nearest points by
  Euclidean distance; `rasterio.features.rasterize` burns shapes in list
  order (later shapes overwrite earlier ones) into cells whose center is
  covered; `scipy`'s t-distribution enters only through two opaque
  function parameters, since no settled statement depends on its values.
-/

/-- Squared Euclidean distance between two metric-frame coordinates. -/
def sqDist (a b : ℚ × ℚ) : ℚ :=
  (a.1 - b.1) ^ 2 + (a.2 - b.2) ^ 2

/-- Insert index `i` into a list of indices sorted by `key`, keeping the
list stably sorted (equal keys keep their existing order). -/
def insertByKey (key : ℕ → ℚ) (i : ℕ) : List ℕ → List ℕ
  | [] => [i]
  | j :: rest => if key i < key j then i :: j :: rest else j :: insertByKey key i rest

/-- Stable insertion sort of a list of indices by `key`. -/
def sortByKey (key : ℕ → ℚ) : List ℕ → List ℕ
  | [] => []
  | i :: rest => insertByKey key i (sortByKey key rest)

/-- Model of `self.kdtree.query(pts, k=m)` for one query point `c`: the
indices of the `m` wells nearest to `c` in Euclidean distance (comparing
squared distances, which orders identically; ties by lower index). -/
def kNearest (pts : List (ℚ × ℚ)) (c : ℚ × ℚ) (m : ℕ) : List ℕ :=
  (sortByKey (fun i => sqDist (pts.getD i (0, 0)) c) (List.range pts.length)).take m

/-- `width = max(1, int(math.ceil((maxx - minx) / float(cell_size))))`
from `ProjectData.idw_grid`. -/
def gridWidth (minx maxx cell : ℚ) : ℕ :=
  max 1 (Int.toNat ⌈(maxx - minx) / cell⌉)

/-- `height = max(1, int(math.ceil((maxy - miny) / float(cell_size))))`
from `ProjectData.idw_grid`. -/
def gridHeight (miny maxy cell : ℚ) : ℕ :=
  max 1 (Int.toNat ⌈(maxy - miny) / cell⌉)

/-- `xs = minx + (np.arange(width) + 0.5) * cell_size`: the cell-center
x coordinates of the interpolation grid. -/
def gridXs (minx cell : ℚ) (w : ℕ) : List ℚ :=
  (List.range w).map (fun j : ℕ => minx + ((j : ℚ) + 1 / 2) * cell)

/-- `ys = maxy - (np.arange(height) + 0.5) * cell_size`: the cell-center
y coordinates of the interpolation grid (top row first). -/
def gridYs (maxy cell : ℚ) (h : ℕ) : List ℚ :=
  (List.range h).map (fun i : ℕ => maxy - ((i : ℚ) + 1 / 2) * cell)

/-- `cell = float(xs[1] - xs[0]) if len(xs) > 1 else 1.0` from
`ProjectData.rasterize_tract_labels`. -/
def rasterCellSize (xs : List ℚ) : ℚ :=
  if 1 < xs.length then xs.getD 1 0 - xs.getD 0 0 else 1

/-- The origin handed to `from_origin` in `rasterize_tract_labels`:
`(xs[0] - 0.5 * cell, ys[0] + 0.5 * cell)` (top-left corner). -/
def rasterAnchor (xs ys : List ℚ) : ℚ × ℚ :=
  (xs.getD 0 0 - rasterCellSize xs / 2, ys.getD 0 0 + rasterCellSize xs / 2)

/-- Center of pixel `(r, c)` of the label grid under the
`from_origin(anchor_x, anchor_y, cell, cell)` transform. -/
def labelCellCenter (xs ys : List ℚ) (r c : ℕ) : ℚ × ℚ :=
  ((rasterAnchor xs ys).1 + ((c : ℚ) + 1 / 2) * rasterCellSize xs,
   (rasterAnchor xs ys).2 - ((r : ℚ) + 1 / 2) * rasterCellSize xs)

/-- Bounding box `(xmin, ymin, xmax, ymax)` of pixel `(r, c)` of the
label grid. -/
def labelCellBox (xs ys : List ℚ) (r c : ℕ) : ℚ × ℚ × ℚ × ℚ :=
  ((rasterAnchor xs ys).1 + (c : ℚ) * rasterCellSize xs,
   (rasterAnchor xs ys).2 - ((r : ℚ) + 1) * rasterCellSize xs,
   (rasterAnchor xs ys).1 + ((c : ℚ) + 1) * rasterCellSize xs,
   (rasterAnchor xs ys).2 - (r : ℚ) * rasterCellSize xs)

/-- Bounding box `(xmin, ymin, xmax, ymax)` of cell `(r, c)` of the
interpolation grid: cell centers sit at half-cell offsets from
`(minx, maxy)`. -/
def interpCellBox (minx maxy cell : ℚ) (r c : ℕ) : ℚ × ℚ × ℚ × ℚ :=
  (minx + (c : ℚ) * cell, maxy - ((r : ℚ) + 1) * cell,
   minx + ((c : ℚ) + 1) * cell, maxy - (r : ℚ) * cell)

/-- The `shapes` list built in `rasterize_tract_labels`: geometry `i` of
the collection paired with burn value `i + 1` (`enumerate(..., start=1)`).
A geometry is modelled by its cell-center membership test. -/
def rasterShapes (geoms : List ((ℚ × ℚ) → Bool)) : List (((ℚ × ℚ) → Bool) × ℕ) :=
  geoms.enum.map (fun p => (p.2, p.1 + 1))

/-- Model of `rasterio.features.rasterize(shapes, fill=0, ...)` at one
pixel: shapes are burned in list order, later shapes overwriting earlier
ones; a pixel whose center no shape covers keeps the fill value `0`. -/
def rasterLabelAt (geoms : List ((ℚ × ℚ) → Bool)) (pt : ℚ × ℚ) : ℕ :=
  (rasterShapes geoms).foldl (fun acc s => if s.1 pt then s.2 else acc) 0

section ZonalMeans

variable {α : Type} [LinearOrderedField α]

/-- The list of `(label, value)` pairs selected by
`valid = np.isfinite(raster) & (labels != 0)` in `ProjectData.zonal_means`
(`none` cells are the non-finite ones). -/
def validCells (raster : List (List (Option α))) (labels : List (List ℕ)) :
    List (ℕ × α) :=
  (raster.zip labels).flatMap
    (fun rl => (rl.1.zip rl.2).filterMap
      (fun vl => match vl.1 with
        | some v => if vl.2 ≠ 0 then some (vl.2, v) else none
        | none => none))

/-- Per-label mean of `ProjectData.zonal_means`: labels present among the
valid cells get `bincount sum / max(bincount count, 1)`; a label with no
valid cell is absent from the `means` dict, modelled as `none`. -/
def zonalMeanOfLabel (cells : List (ℕ × α)) (l : ℕ) : Option α :=
  let vs := (cells.filter (fun p => p.1 == l)).map Prod.snd
  if vs.isEmpty then none else some (vs.sum / max (vs.length : α) 1)

/-- Written from the spec's words for the Zonal Aggregator: the finite
grid values at the cells carrying label `l`. -/
def specLabelVals (raster : List (List (Option α))) (labels : List (List ℕ))
    (l : ℕ) : List α :=
  (raster.zip labels).flatMap
    (fun rl => (rl.1.zip rl.2).filterMap
      (fun vl => if vl.2 = l then vl.1 else none))

end ZonalMeans

/-- The value attribute (`nitr_ran`) of a well feature, as the loader can
observe it: absent (or `None`), present but not parseable by `float`,
parseable but non-finite (`nan`/`inf`), or a finite number. -/
inductive AttrVal where
  | missing : AttrVal
  | nonNumeric : AttrVal
  | nonFinite : AttrVal
  | num : ℚ → AttrVal
deriving DecidableEq

/-- One feature of `well_nitrate.shp`: `geom = none` models an empty
geometry; `some p` is the point coordinate (or the centroid, for
non-point geometry) in the source frame. -/
structure WellFeature where
  geom : Option (ℚ × ℚ)
  nitr : AttrVal
deriving DecidableEq

/-- Written from the amended claim's words: the features that yield a
valid point, namely those with non-empty geometry and a finite numeric
value, paired as (source-frame coordinate, value). -/
def specValidWells (feats : List WellFeature) : List ((ℚ × ℚ) × ℚ) :=
  feats.filterMap (fun f => match f.geom, f.nitr with
    | some p, AttrVal.num v => some (p, v)
    | _, _ => none)

/-- `ProjectData._load_wells`: per feature, skip empty geometries, skip a
missing value, skip a `float()` failure, skip a non-finite value; keep the
transformed coordinate and the value; raise
`RuntimeError` when nothing was kept.  `tfm` models
`TF_DATA_TO_M.transform`. -/
def loadWells (tfm : ℚ × ℚ → ℚ × ℚ) (feats : List WellFeature) :
    Except String (List (ℚ × ℚ) × List ℚ) :=
  let picked := feats.filterMap (fun f => match f.geom, f.nitr with
    | some p, AttrVal.num v => some (tfm p, v)
    | _, _ => none)
  if picked.isEmpty then
    Except.error "No valid well points with nitrate values were found."
  else
    Except.ok (picked.map Prod.fst, picked.map Prod.snd)

section RealValued

/-- Euclidean distance, as reported by `cKDTree.query`. -/
noncomputable def eDist (a b : ℚ × ℚ) : ℝ :=
  Real.sqrt ((sqDist a b : ℚ) : ℝ)

/-- The neighbor weights of `ProjectData.idw_grid` at one cell center:
`d = np.maximum(dists, 1.0)` then `w = 1.0 / d ** k`. -/
noncomputable def idwWeights (pts : List (ℚ × ℚ)) (k : ℝ) (m : ℕ) (c : ℚ × ℚ) :
    List ℝ :=
  (kNearest pts c m).map (fun i => 1 / max (eDist (pts.getD i (0, 0)) c) 1 ^ k)

/-- The neighbor values `z = self.wells_vals[idxs]` at one cell center. -/
noncomputable def idwNeighborVals (pts : List (ℚ × ℚ)) (vals : List ℚ) (m : ℕ)
    (c : ℚ × ℚ) : List ℝ :=
  (kNearest pts c m).map (fun i => ((vals.getD i 0 : ℚ) : ℝ))

/-- The per-cell prediction of `ProjectData.idw_grid`:
`pred = (w * z).sum(axis=1) / np.maximum(w.sum(axis=1), 1e-12)`. -/
noncomputable def idwPredict (pts : List (ℚ × ℚ)) (vals : List ℚ) (k : ℝ)
    (m : ℕ) (c : ℚ × ℚ) : ℝ :=
  (List.zipWith (· * ·) (idwWeights pts k m c) (idwNeighborVals pts vals m c)).sum /
    max (idwWeights pts k m c).sum 1e-12

/-- Written from the spec's words for the Interpolation Engine: weight
`w_i = 1 / max(d_i, 1.0)^k` and predicted value `Σ w_i·value_i / Σ w_i`
(no clamp on the denominator). -/
noncomputable def specIdwPredict (pts : List (ℚ × ℚ)) (vals : List ℚ) (k : ℝ)
    (m : ℕ) (c : ℚ × ℚ) : ℝ :=
  (List.zipWith (· * ·) (idwWeights pts k m c) (idwNeighborVals pts vals m c)).sum /
    (idwWeights pts k m c).sum

end RealValued

/-- The regression fields assembled into the `"ols"` dict of
`ProjectData.run_pipeline` (and of `app.py`'s `api_run`): a float `NaN`
field is `none`. -/
structure OLSStats where
  slope : Option ℝ
  intercept : Option ℝ
  r2 : Option ℝ
  pValue : Option ℝ
  ciLow : Option ℝ
  ciHigh : Option ℝ
  n : ℕ

open Classical in
/-- Model of `sm.add_constant(x)` followed by `sm.OLS(y, X).fit()` and the
field extraction `params[1] / params[0] / rsquared / pvalues[1] /
conf_int()[1]` done in `ProjectData.run_pipeline`, from statsmodels'
documented behaviour:

* no observations: the `np.ptp` reduction inside `add_constant` raises;
* `add_constant(has_constant='skip')` adds no intercept column when the
  data column is constant and non-zero (so with one observation, or a
  constant non-zero predictor, `params` has length 1 and `params[1]`
  raises `IndexError`);
* an all-zero predictor column gets an intercept; the pseudo-inverse
  fit then gives slope `0`, intercept `ȳ`, and `NaN` ratios where a
  `0/0` arises;
* otherwise the closed normal-equation form, `R² = 1 - SSR/TSS`
  (`NaN` when `TSS = 0`), standard error `sqrt((SSR/(n-2))/Sxx)`,
  two-sided p-value `tsf (n-2) t` and 95% interval `slope ± tcrit (n-2) · se`,
  where `tsf`/`tcrit` stand for scipy's t-distribution (opaque here; at a
  perfect fit the float `t = slope/0` is modelled by Lean's total
  division, and no settled statement depends on either point). -/
noncomputable def smOLSStats (tsf : ℕ → ℝ → ℝ) (tcrit : ℕ → ℝ)
    (pairs : List (ℝ × ℝ)) : Except String OLSStats :=
  match pairs with
  | [] => Except.error "ValueError: zero-size array to reduction operation"
  | [(x, y)] =>
    if x = 0 then
      Except.ok ⟨some 0, some y, none, none, none, none, 1⟩
    else
      Except.error "IndexError: index 1 is out of bounds"
  | _ =>
    let n := pairs.length
    let xs := pairs.map Prod.fst
    let ys := pairs.map Prod.snd
    let xbar := xs.sum / (n : ℝ)
    let ybar := ys.sum / (n : ℝ)
    let sxx := (xs.map (fun x => (x - xbar) ^ 2)).sum
    let sxy := (List.zipWith (fun x y => (x - xbar) * (y - ybar)) xs ys).sum
    let tss := (ys.map (fun y => (y - ybar) ^ 2)).sum
    if sxx = 0 then
      if xbar = 0 then
        Except.ok ⟨some 0, some ybar, if tss = 0 then none else some 0,
          none, none, none, n⟩
      else
        Except.error "IndexError: index 1 is out of bounds"
    else
      let slope := sxy / sxx
      let intercept := ybar - slope * xbar
      let ssr := (List.zipWith (fun x y => (y - (intercept + slope * x)) ^ 2) xs ys).sum
      let se := Real.sqrt ((ssr / ((n : ℝ) - 2)) / sxx)
      Except.ok ⟨some slope, some intercept,
        (if tss = 0 then none else some (1 - ssr / tss)),
        some (tsf (n - 2) (slope / se)),
        some (slope - tcrit (n - 2) * se), some (slope + tcrit (n - 2) * se), n⟩

/-- Model of `app.py`'s cached-path regression (`api_run`, the
`n_obs >= 2` guard): below two paired rows every statistic is `NaN` and
`n` is recorded; otherwise the same statsmodels fit. -/
noncomputable def apiRunCachedOls (tsf : ℕ → ℝ → ℝ) (tcrit : ℕ → ℝ)
    (pairs : List (ℝ × ℝ)) : Except String OLSStats :=
  if 2 ≤ pairs.length then smOLSStats tsf tcrit pairs
  else Except.ok ⟨none, none, none, none, none, none, pairs.length⟩

/-- One tract feature as `ProjectData` keeps it: its `GEOID10`, its
geometry in the metric frame (modelled by the cell-center membership
test that rasterization performs on it), and its `canrate`
(`none`: absent or non-finite). -/
structure Tract where
  gid : String
  covers : (ℚ × ℚ) → Bool
  rate : Option ℚ

/-- The state `ProjectData` carries between evaluations: wells (metric
coordinates and values), tracts, the union bounds
`(minx, miny, maxx, maxy)`, and the `TF_M_TO_LL` transformer used only
for display bounds. -/
structure DatasetContext where
  wells : List (ℚ × ℚ)
  wellVals : List ℚ
  tracts : List Tract
  bounds : ℚ × ℚ × ℚ × ℚ
  toLL : ℚ × ℚ → ℚ × ℚ

/-- Python dict lookup for a dict built by repeated assignment in list
order: the last binding of a key wins; `none` when the key was never
bound. -/
def lookupLast {β : Type} (l : List (String × β)) (g : String) : Option β :=
  l.foldl (fun acc p => if p.1 == g then some p.2 else acc) none

/-- `ProjectData.bounds_ll`: `[sw_lon, sw_lat, ne_lon, ne_lat]` from the
corner points of the metric union bounds. -/
def boundsLL (ctx : DatasetContext) : List ℚ :=
  [(ctx.toLL (ctx.bounds.1, ctx.bounds.2.1)).1,
   (ctx.toLL (ctx.bounds.1, ctx.bounds.2.1)).2,
   (ctx.toLL (ctx.bounds.2.2.1, ctx.bounds.2.2.2)).1,
   (ctx.toLL (ctx.bounds.2.2.1, ctx.bounds.2.2.2)).2]

/-- The unit inference of `ProjectData.run_pipeline` (lines 377-384):
`np.nanmax` over the `canrate` column (NaN entries are skipped; an
all-NaN column gives NaN, caught by the `isfinite` test), then
`proportion`/100000 when the maximum is `<= 1.0`, else `raw`/1. -/
def inferUnits (rates : List (Option ℚ)) : String × ℕ :=
  match (rates.filterMap id).max? with
  | some mx => if mx ≤ 1 then ("proportion", 100000) else ("raw", 1)
  | none => ("raw", 1)

/-- The interpolation raster of `ProjectData.idw_grid` (row-major, top
row first), over the grid spanned by the union bounds. -/
noncomputable def pipelineRaster (ctx : DatasetContext) (k : ℝ) (m : ℕ)
    (cell : ℚ) : List (List ℝ) :=
  let w := gridWidth ctx.bounds.1 ctx.bounds.2.2.1 cell
  let h := gridHeight ctx.bounds.2.1 ctx.bounds.2.2.2 cell
  (gridYs ctx.bounds.2.2.2 cell h).map (fun y =>
    (gridXs ctx.bounds.1 cell w).map (fun x =>
      idwPredict ctx.wells ctx.wellVals k m (x, y)))

/-- The label grid of `ProjectData.rasterize_tract_labels`, aligned to
the interpolation grid via the `from_origin` pixel transform. -/
def pipelineLabels (ctx : DatasetContext) (cell : ℚ) : List (List ℕ) :=
  let w := gridWidth ctx.bounds.1 ctx.bounds.2.2.1 cell
  let h := gridHeight ctx.bounds.2.1 ctx.bounds.2.2.2 cell
  let xs := gridXs ctx.bounds.1 cell w
  let ys := gridYs ctx.bounds.2.2.2 cell h
  (List.range h).map (fun r => (List.range w).map (fun c =>
    rasterLabelAt (ctx.tracts.map Tract.covers) (labelCellCenter xs ys r c)))

/-- The `means` dict of `ProjectData.zonal_means` as an association list
in ascending label order: tract `i` (0-based) carries label `i + 1`, and
only labels with at least one valid cell are present. -/
noncomputable def pipelineMeans (ctx : DatasetContext) (k : ℝ) (m : ℕ)
    (cell : ℚ) : List (String × ℝ) :=
  let cells := validCells
    ((pipelineRaster ctx k m cell).map (fun row => row.map some))
    (pipelineLabels ctx cell)
  ctx.tracts.enum.filterMap (fun p =>
    (zonalMeanOfLabel cells (p.1 + 1)).map (fun mv => (p.2.gid, mv)))

/-- The `canrate` column of the table built in `ProjectData.run_pipeline`:
one row per tract, each looked up in the `rate_by_gid` dict
(`.get(gid, np.nan)`, and a stored `None` also becomes NaN). -/
def pipelineRates (ctx : DatasetContext) : List (Option ℚ) :=
  ctx.tracts.map (fun t =>
    (lookupLast (ctx.tracts.map (fun u => (u.gid, u.rate))) t.gid).join)

/-- The rows of the `pd.DataFrame` in `ProjectData.run_pipeline`:
`(GEOID10, mean_nitrate, canrate)` per tract, with dict lookups
defaulting to NaN. -/
noncomputable def pipelineRows (ctx : DatasetContext) (k : ℝ) (m : ℕ)
    (cell : ℚ) : List (String × Option ℝ × Option ℚ) :=
  List.zipWith (fun (t : Tract) r =>
      (t.gid, lookupLast (pipelineMeans ctx k m cell) t.gid, r))
    ctx.tracts (pipelineRates ctx)

/-- `df.dropna(subset=["mean_nitrate", "canrate"])`: the regression
pairs, keeping exactly the rows where both entries are present. -/
noncomputable def pipelinePairs (ctx : DatasetContext) (k : ℝ) (m : ℕ)
    (cell : ℚ) : List (ℝ × ℝ) :=
  (pipelineRows ctx k m cell).filterMap (fun r => match r.2.1, r.2.2 with
    | some mv, some rv => some (mv, (rv : ℝ))
    | _, _ => none)

/-- The result dict of `ProjectData.run_pipeline`.  The artifact path
strings are modelled as fixed handles (the `k`-dependent float formatting
of the filenames is not modelled; no claim depends on the names). -/
structure PipelineResult where
  png : Option String
  bounds : List ℚ
  geojson : Option String
  csv : Option String
  ols : OLSStats
  rateUnits : String
  rateScale : ℕ

/-- `ProjectData.run_pipeline`: raise when the KDTree was never built
(no wells); otherwise IDW grid, zonal means, table, statsmodels OLS
(whose exception propagates), unit inference, and — only under
`write_outputs` — the PNG/CSV/GeoJSON artifacts. -/
noncomputable def runPipeline (tsf : ℕ → ℝ → ℝ) (tcrit : ℕ → ℝ)
    (ctx : DatasetContext) (k : ℝ) (m : ℕ) (cell : ℚ)
    (writeOutputs : Bool) : Except String PipelineResult :=
  if ctx.wells.isEmpty then
    Except.error "KDTree not initialized; wells missing?"
  else
    (smOLSStats tsf tcrit (pipelinePairs ctx k m cell)).map (fun ols =>
      { png := if writeOutputs then some "nitrate_k.png" else none
        bounds := boundsLL ctx
        geojson := if writeOutputs then some "tracts_k.geojson" else none
        csv := if writeOutputs then some "tract_table_k.csv" else none
        ols := ols
        rateUnits := (inferUnits (pipelineRates ctx)).1
        rateScale := (inferUnits (pipelineRates ctx)).2 })

lemma mem_insertByKey {key : ℕ → ℚ} {i j : ℕ} :
    ∀ {l : List ℕ}, j ∈ insertByKey key i l → j = i ∨ j ∈ l
  | [], h => by simpa [insertByKey] using h
  | a :: l, h => by
    rw [insertByKey] at h
    split at h
    · rcases List.mem_cons.mp h with h | h
      · exact Or.inl h
      · exact Or.inr h
    · rcases List.mem_cons.mp h with h | h
      · exact Or.inr (h ▸ List.mem_cons_self a l)
      · rcases mem_insertByKey h with h | h
        · exact Or.inl h
        · exact Or.inr (List.mem_cons_of_mem a h)

lemma mem_sortByKey {key : ℕ → ℚ} {j : ℕ} :
    ∀ {l : List ℕ}, j ∈ sortByKey key l → j ∈ l
  | [], h => by simpa [sortByKey] using h
  | a :: l, h => by
    rw [sortByKey] at h
    rcases mem_insertByKey h with h | h
    · exact h ▸ List.mem_cons_self a l
    · exact List.mem_cons_of_mem a (mem_sortByKey h)

/-- Every index returned by the nearest-neighbor query is a valid well
index. -/
lemma kNearest_lt_length {pts : List (ℚ × ℚ)} {c : ℚ × ℚ} {m i : ℕ}
    (h : i ∈ kNearest pts c m) : i < pts.length := by
  unfold kNearest at h
  exact List.mem_range.mp (mem_sortByKey (List.mem_of_mem_take h))

/-- Every IDW weight is strictly positive: the floored base
`max(d, 1.0)` is at least 1. -/
lemma idwWeights_pos {pts : List (ℚ × ℚ)} {k : ℝ} {m : ℕ} {c : ℚ × ℚ}
    {w : ℝ} (hw : w ∈ idwWeights pts k m c) : 0 < w := by
  unfold idwWeights at hw
  rcases List.mem_map.mp hw with ⟨i, _, rfl⟩
  have h1 : (0:ℝ) < max (eDist (pts.getD i (0, 0)) c) 1 :=
    lt_of_lt_of_le one_pos (le_max_right _ _)
  exact div_pos one_pos (Real.rpow_pos_of_pos h1 k)

lemma sum_zipWith_mul_le (hi : ℝ) :
    ∀ (ws zs : List ℝ), ws.length = zs.length → (∀ w ∈ ws, 0 ≤ w) →
      (∀ z ∈ zs, z ≤ hi) →
      (List.zipWith (· * ·) ws zs).sum ≤ hi * ws.sum := by
  intro ws
  induction ws with
  | nil => intro zs _ _ _; simp
  | cons w ws ih =>
    intro zs hlen hw hz
    cases zs with
    | nil => simp at hlen
    | cons z zs =>
      have h1 : w * z ≤ w * hi :=
        mul_le_mul_of_nonneg_left (hz z (List.mem_cons_self z zs))
          (hw w (List.mem_cons_self w ws))
      have h2 := ih zs (by simpa using hlen)
        (fun a ha => hw a (List.mem_cons_of_mem w ha))
        (fun a ha => hz a (List.mem_cons_of_mem z ha))
      simp only [List.zipWith_cons_cons, List.sum_cons]
      calc w * z + (List.zipWith (· * ·) ws zs).sum
          ≤ w * hi + hi * ws.sum := add_le_add h1 h2
        _ = hi * (w + ws.sum) := by ring

lemma le_sum_zipWith_mul (lo : ℝ) :
    ∀ (ws zs : List ℝ), ws.length = zs.length → (∀ w ∈ ws, 0 ≤ w) →
      (∀ z ∈ zs, lo ≤ z) →
      lo * ws.sum ≤ (List.zipWith (· * ·) ws zs).sum := by
  intro ws
  induction ws with
  | nil => intro zs _ _ _; simp
  | cons w ws ih =>
    intro zs hlen hw hz
    cases zs with
    | nil => simp at hlen
    | cons z zs =>
      have h1 : w * lo ≤ w * z :=
        mul_le_mul_of_nonneg_left (hz z (List.mem_cons_self z zs))
          (hw w (List.mem_cons_self w ws))
      have h2 := ih zs (by simpa using hlen)
        (fun a ha => hw a (List.mem_cons_of_mem w ha))
        (fun a ha => hz a (List.mem_cons_of_mem z ha))
      simp only [List.zipWith_cons_cons, List.sum_cons]
      calc lo * (w + ws.sum) = w * lo + lo * ws.sum := by ring
        _ ≤ w * z + (List.zipWith (· * ·) ws zs).sum := add_le_add h1 h2

/-- When the weight sum clears the `1e-12` clamp, the clamp is inert and
the coded prediction is the spec's ratio. -/
lemma idwPredict_eq_spec {pts : List (ℚ × ℚ)} {vals : List ℚ} {k : ℝ}
    {m : ℕ} {c : ℚ × ℚ}
    (h : (1e-12 : ℝ) ≤ (idwWeights pts k m c).sum) :
    idwPredict pts vals k m c = specIdwPredict pts vals k m c := by
  unfold idwPredict specIdwPredict
  rw [max_eq_left h]

lemma kNearest_singleton (p c : ℚ × ℚ) : kNearest [p] c 1 = [0] := rfl

lemma idw_weights_at_origin :
    idwWeights [((0:ℚ), (0:ℚ))] 1 1 (0, 0) = [1] := by
  unfold idwWeights
  rw [kNearest_singleton]
  simp only [List.map_cons, List.map_nil, List.getD_cons_zero]
  rw [show eDist ((0:ℚ), (0:ℚ)) (0, 0) = 0 by
    simp [eDist, sqDist, Real.sqrt_zero]]
  rw [max_eq_right zero_le_one, Real.one_rpow, one_div_one]

lemma eDist_far13 : eDist ((0:ℚ), (0:ℚ)) (10^13, 0) = 10^13 := by
  unfold eDist
  rw [show sqDist ((0:ℚ), (0:ℚ)) (10^13, 0) = 10^26 by norm_num [sqDist]]
  push_cast
  rw [show ((10:ℝ)^26) = ((10:ℝ)^13)^2 by norm_num]
  exact Real.sqrt_sq (by positivity)

lemma idw_weights_far13 :
    idwWeights [((0:ℚ), (0:ℚ))] 1 1 (10^13, 0) = [1 / 10^13] := by
  unfold idwWeights
  rw [kNearest_singleton]
  simp only [List.map_cons, List.map_nil, List.getD_cons_zero]
  rw [eDist_far13, max_eq_left (by norm_num), Real.rpow_one]

lemma eDist_far12 : eDist ((0:ℚ), (0:ℚ)) (2 * 10^12, 0) = 2 * 10^12 := by
  unfold eDist
  rw [show sqDist ((0:ℚ), (0:ℚ)) (2 * 10^12, 0) = 4 * 10^24 by norm_num [sqDist]]
  push_cast
  rw [show ((4:ℝ) * 10^24) = (2 * (10:ℝ)^12)^2 by norm_num]
  exact Real.sqrt_sq (by positivity)

lemma idw_weights_far12 :
    idwWeights [((0:ℚ), (0:ℚ))] 1 1 (2 * 10^12, 0) = [1 / (2 * 10^12)] := by
  unfold idwWeights
  rw [kNearest_singleton]
  simp only [List.map_cons, List.map_nil, List.getD_cons_zero]
  rw [eDist_far12, max_eq_left (by norm_num), Real.rpow_one]

/-- C1 (amended): for every grid cell center the interpolation engine
queries the `m` nearest well points and uses weights
`w_i = 1 / max(d_i, 1.0)^k`; the predicted value equals
`Σ w_i·value_i / Σ w_i` provided the weight sum is at least `1e-12` —
below that the code clamps the denominator to `1e-12` instead
(`np.maximum(w.sum(axis=1), 1e-12)`). -/
theorem c1_idw_formula (pts : List (ℚ × ℚ)) (vals : List ℚ) (k : ℝ) (m : ℕ)
    (c : ℚ × ℚ) (hk : 0 < k)
    (hsum : (1e-12 : ℝ) ≤ (idwWeights pts k m c).sum) :
    idwPredict pts vals k m c = specIdwPredict pts vals k m c :=
  idwPredict_eq_spec hsum

/-- Witness for C1 at a concrete input: a single well at the cell center
gives weight sum 1, clearing the clamp. -/
theorem c1_idw_formula_witness :
    (0:ℝ) < 1 ∧
    (1e-12 : ℝ) ≤ (idwWeights [((0:ℚ), (0:ℚ))] 1 1 (0, 0)).sum ∧
    idwPredict [((0:ℚ), (0:ℚ))] [5] 1 1 (0, 0) =
      specIdwPredict [((0:ℚ), (0:ℚ))] [5] 1 1 (0, 0) := by
  have h : (1e-12 : ℝ) ≤ (idwWeights [((0:ℚ), (0:ℚ))] 1 1 (0, 0)).sum := by
    rw [idw_weights_at_origin]; norm_num
  exact ⟨one_pos, h, c1_idw_formula _ _ _ _ _ one_pos h⟩

/-- Counterexample to C1 as stated: a grid cell center `(10^13, 0)`
(realized by extent `[10^13 - 1/2, 10^13 + 1/2] × [-1/2, 1/2]` with
cell size 1) whose single neighbor lies `10^13` away has weight sum
`10^-13 < 1e-12`, so the code returns `Σwz / 1e-12 = 1/2` while the
claimed ratio `Σwz / Σw` is 5. -/
theorem c1_idw_counterexample :
    gridXs (10^13 - 1/2) 1 1 = [(10^13 : ℚ)] ∧
    gridYs (1/2) 1 1 = [(0 : ℚ)] ∧
    idwPredict [((0:ℚ), (0:ℚ))] [5] 1 1 (10^13, 0) = 1/2 ∧
    specIdwPredict [((0:ℚ), (0:ℚ))] [5] 1 1 (10^13, 0) = 5 ∧
    idwPredict [((0:ℚ), (0:ℚ))] [5] 1 1 (10^13, 0) ≠
      specIdwPredict [((0:ℚ), (0:ℚ))] [5] 1 1 (10^13, 0) := by
  have hz : idwNeighborVals [((0:ℚ), (0:ℚ))] [5] 1 (10^13, 0) = [(5:ℝ)] := by
    unfold idwNeighborVals
    rw [kNearest_singleton]
    norm_num
  have hpred : idwPredict [((0:ℚ), (0:ℚ))] [5] 1 1 (10^13, 0) = 1/2 := by
    unfold idwPredict
    rw [idw_weights_far13, hz]
    simp only [List.zipWith_cons_cons, List.zipWith_nil_left, List.sum_cons,
      List.sum_nil, add_zero]
    rw [max_eq_right (by norm_num : (1:ℝ)/10^13 ≤ 1e-12)]
    norm_num
  have hspec : specIdwPredict [((0:ℚ), (0:ℚ))] [5] 1 1 (10^13, 0) = 5 := by
    unfold specIdwPredict
    rw [idw_weights_far13, hz]
    simp only [List.zipWith_cons_cons, List.zipWith_nil_left, List.sum_cons,
      List.sum_nil, add_zero]
    norm_num
  refine ⟨?_, ?_, hpred, hspec, ?_⟩
  · simp only [gridXs, List.range_succ, List.range_zero, List.nil_append,
      List.map_cons, List.map_nil, Nat.cast_zero]
    norm_num
  · simp only [gridYs, List.range_succ, List.range_zero, List.nil_append,
      List.map_cons, List.map_nil, Nat.cast_zero]
    norm_num
  rw [hpred, hspec]
  norm_num

/-- C3 (amended): when the neighbor weight sum falls below `1e-12`, the
code clamps the denominator to `1e-12` and the cell value is the finite
quotient `Σ w_i·value_i / 1e-12` — not NaN and not a division fault. -/
theorem c3_underflow_clamp (pts : List (ℚ × ℚ)) (vals : List ℚ) (k : ℝ)
    (m : ℕ) (c : ℚ × ℚ)
    (h : (idwWeights pts k m c).sum < 1e-12) :
    idwPredict pts vals k m c =
      (List.zipWith (· * ·) (idwWeights pts k m c)
        (idwNeighborVals pts vals m c)).sum / 1e-12 := by
  unfold idwPredict
  rw [max_eq_right h.le]

/-- Witness for C3 (amended) at a concrete input: one well `2·10^12`
away gives weight sum `5·10^-13 < 1e-12`. -/
theorem c3_underflow_clamp_witness :
    (idwWeights [((0:ℚ), (0:ℚ))] 1 1 (2 * 10^12, 0)).sum < 1e-12 ∧
    idwPredict [((0:ℚ), (0:ℚ))] [8] 1 1 (2 * 10^12, 0) =
      (List.zipWith (· * ·) (idwWeights [((0:ℚ), (0:ℚ))] 1 1 (2 * 10^12, 0))
        (idwNeighborVals [((0:ℚ), (0:ℚ))] [8] 1 (2 * 10^12, 0))).sum / 1e-12 := by
  have h : (idwWeights [((0:ℚ), (0:ℚ))] 1 1 (2 * 10^12, 0)).sum < 1e-12 := by
    rw [idw_weights_far12]
    norm_num
  exact ⟨h, c3_underflow_clamp _ _ _ _ _ h⟩

/-- Counterexample to C3 as stated: at a cell whose weight sum
underflows the `1e-12` clamp, the code produces the finite substitute
value 4 (namely `Σwz / 1e-12`), not NaN. -/
theorem c3_underflow_counterexample :
    (idwWeights [((0:ℚ), (0:ℚ))] 1 1 (2 * 10^12, 0)).sum < 1e-12 ∧
    idwPredict [((0:ℚ), (0:ℚ))] [8] 1 1 (2 * 10^12, 0) = 4 := by
  have h : (idwWeights [((0:ℚ), (0:ℚ))] 1 1 (2 * 10^12, 0)).sum < 1e-12 := by
    rw [idw_weights_far12]
    norm_num
  refine ⟨h, ?_⟩
  have hz : idwNeighborVals [((0:ℚ), (0:ℚ))] [8] 1 (2 * 10^12, 0) = [(8:ℝ)] := by
    unfold idwNeighborVals
    rw [kNearest_singleton]
    norm_num
  unfold idwPredict
  rw [idw_weights_far12, hz]
  simp only [List.zipWith_cons_cons, List.zipWith_nil_left, List.sum_cons,
    List.sum_nil, add_zero]
  rw [max_eq_right (by norm_num : (1:ℝ)/(2 * 10^12) ≤ 1e-12)]
  norm_num

/-- C10: when the neighbor weight sum is at least `1e-12`, the
interpolated value is the convex combination `Σwz / Σw` of neighbor well
values and hence lies between any lower and any upper bound of the
loaded well values — in particular between their minimum and maximum. -/
theorem c10_idw_in_range (pts : List (ℚ × ℚ)) (vals : List ℚ) (k : ℝ)
    (m : ℕ) (c : ℚ × ℚ) (lo hi : ℚ)
    (hlen : pts.length = vals.length)
    (hlo : ∀ v ∈ vals, lo ≤ v) (hhi : ∀ v ∈ vals, v ≤ hi)
    (hsum : (1e-12 : ℝ) ≤ (idwWeights pts k m c).sum) :
    (lo : ℝ) ≤ idwPredict pts vals k m c ∧
      idwPredict pts vals k m c ≤ (hi : ℝ) := by
  have hpos : (0:ℝ) < (idwWeights pts k m c).sum :=
    lt_of_lt_of_le (by norm_num) hsum
  have hwlen : (idwWeights pts k m c).length =
      (idwNeighborVals pts vals m c).length := by
    simp [idwWeights, idwNeighborVals]
  have hwpos : ∀ w ∈ idwWeights pts k m c, (0:ℝ) ≤ w :=
    fun w hw => (idwWeights_pos hw).le
  have hzlo : ∀ z ∈ idwNeighborVals pts vals m c, (lo : ℝ) ≤ z := by
    intro z hz
    rcases List.mem_map.mp hz with ⟨i, hi2, rfl⟩
    have hil : i < vals.length := hlen ▸ kNearest_lt_length hi2
    have : vals.getD i 0 ∈ vals := by
      rw [List.getD_eq_getElem vals 0 hil]
      exact List.getElem_mem hil
    exact_mod_cast hlo _ this
  have hzhi : ∀ z ∈ idwNeighborVals pts vals m c, z ≤ (hi : ℝ) := by
    intro z hz
    rcases List.mem_map.mp hz with ⟨i, hi2, rfl⟩
    have hil : i < vals.length := hlen ▸ kNearest_lt_length hi2
    have : vals.getD i 0 ∈ vals := by
      rw [List.getD_eq_getElem vals 0 hil]
      exact List.getElem_mem hil
    exact_mod_cast hhi _ this
  rw [idwPredict_eq_spec hsum]
  unfold specIdwPredict
  constructor
  · rw [le_div_iff₀ hpos]
    exact le_sum_zipWith_mul _ _ _ hwlen hwpos hzlo
  · rw [div_le_iff₀ hpos]
    exact sum_zipWith_mul_le _ _ _ hwlen hwpos hzhi

/-- Witness for C10 at a concrete input: one well of value 3 at the cell
center; weight sum 1 and the prediction is pinched between 3 and 3. -/
theorem c10_idw_in_range_witness :
    ([((0:ℚ), (0:ℚ))].length = [(3:ℚ)].length) ∧
    (∀ v ∈ [(3:ℚ)], (3:ℚ) ≤ v) ∧ (∀ v ∈ [(3:ℚ)], v ≤ (3:ℚ)) ∧
    (1e-12 : ℝ) ≤ (idwWeights [((0:ℚ), (0:ℚ))] 1 1 (0, 0)).sum ∧
    (((3:ℚ) : ℝ) ≤ idwPredict [((0:ℚ), (0:ℚ))] [3] 1 1 (0, 0) ∧
      idwPredict [((0:ℚ), (0:ℚ))] [3] 1 1 (0, 0) ≤ ((3:ℚ) : ℝ)) := by
  have hsum : (1e-12 : ℝ) ≤ (idwWeights [((0:ℚ), (0:ℚ))] 1 1 (0, 0)).sum := by
    rw [idw_weights_at_origin]
    norm_num
  refine ⟨rfl, by simp, by simp, hsum, ?_⟩
  exact c10_idw_in_range _ _ _ _ _ _ _ rfl (by simp) (by simp) hsum

lemma grid_dim_spec (lo hi cell : ℚ) (hc : 0 < cell) (hlt : lo < hi) :
    ((max 1 (Int.toNat ⌈(hi - lo) / cell⌉) : ℕ) : ℤ) = ⌈(hi - lo) / cell⌉ ∧
    1 ≤ max 1 (Int.toNat ⌈(hi - lo) / cell⌉) ∧
    hi ≤ lo + ((max 1 (Int.toNat ⌈(hi - lo) / cell⌉) : ℕ) : ℚ) * cell := by
  have hq : 0 < (hi - lo) / cell := div_pos (sub_pos.mpr hlt) hc
  have hceil : 1 ≤ ⌈(hi - lo) / cell⌉ := Int.ceil_pos.mpr hq
  have htn : (1:ℕ) ≤ Int.toNat ⌈(hi - lo) / cell⌉ := by
    omega
  have hmax : max 1 (Int.toNat ⌈(hi - lo) / cell⌉) = Int.toNat ⌈(hi - lo) / cell⌉ :=
    max_eq_right htn
  have hcast : ((Int.toNat ⌈(hi - lo) / cell⌉ : ℕ) : ℤ) = ⌈(hi - lo) / cell⌉ :=
    Int.toNat_of_nonneg (by omega)
  refine ⟨by rw [hmax]; exact_mod_cast hcast, le_max_left _ _, ?_⟩
  have hle : (hi - lo) / cell ≤ ((Int.toNat ⌈(hi - lo) / cell⌉ : ℕ) : ℚ) := by
    have := Int.le_ceil ((hi - lo) / cell)
    calc (hi - lo) / cell ≤ (⌈(hi - lo) / cell⌉ : ℚ) := this
      _ = ((Int.toNat ⌈(hi - lo) / cell⌉ : ℕ) : ℚ) := by exact_mod_cast hcast.symm
  rw [hmax]
  have := (div_le_iff₀ hc).mp hle
  linarith

/-- C5: for positive cell size and a non-empty extent, the grid is
`ceil((maxx-minx)/cell) × ceil((maxy-miny)/cell)` cells, each dimension
at least 1, and it covers the extent:
`minx + width·cell ≥ maxx` and `miny + height·cell ≥ maxy`. -/
theorem c5_grid_covers_extent (minx miny maxx maxy cell : ℚ)
    (hc : 0 < cell) (hx : minx < maxx) (hy : miny < maxy) :
    ((gridWidth minx maxx cell : ℕ) : ℤ) = ⌈(maxx - minx) / cell⌉ ∧
    ((gridHeight miny maxy cell : ℕ) : ℤ) = ⌈(maxy - miny) / cell⌉ ∧
    1 ≤ gridWidth minx maxx cell ∧ 1 ≤ gridHeight miny maxy cell ∧
    maxx ≤ minx + ((gridWidth minx maxx cell : ℕ) : ℚ) * cell ∧
    maxy ≤ miny + ((gridHeight miny maxy cell : ℕ) : ℚ) * cell := by
  obtain ⟨hx1, hx2, hx3⟩ := grid_dim_spec minx maxx cell hc hx
  obtain ⟨hy1, hy2, hy3⟩ := grid_dim_spec miny maxy cell hc hy
  exact ⟨hx1, hy1, hx2, hy2, hx3, hy3⟩

/-- Witness for C5 at a concrete input: extent `[0, 5] × [0, 3]` with
cell size 2 gives a 3 × 2 grid covering the extent. -/
theorem c5_grid_covers_extent_witness :
    (0:ℚ) < 2 ∧ (0:ℚ) < 5 ∧ (0:ℚ) < 3 ∧
    (((gridWidth 0 5 2 : ℕ) : ℤ) = ⌈((5:ℚ) - 0) / 2⌉ ∧
     ((gridHeight 0 3 2 : ℕ) : ℤ) = ⌈((3:ℚ) - 0) / 2⌉ ∧
     1 ≤ gridWidth 0 5 2 ∧ 1 ≤ gridHeight 0 3 2 ∧
     (5:ℚ) ≤ 0 + ((gridWidth 0 5 2 : ℕ) : ℚ) * 2 ∧
     (3:ℚ) ≤ 0 + ((gridHeight 0 3 2 : ℕ) : ℚ) * 2) := by
  exact ⟨by norm_num, by norm_num, by norm_num,
    c5_grid_covers_extent 0 0 5 3 2 (by norm_num) (by norm_num) (by norm_num)⟩

lemma loadWells_picked (tfm : ℚ × ℚ → ℚ × ℚ) (feats : List WellFeature) :
    feats.filterMap (fun f => match f.geom, f.nitr with
      | some p, AttrVal.num v => some (tfm p, v)
      | _, _ => none) =
    (specValidWells feats).map (fun p => (tfm p.1, p.2)) := by
  induction feats with
  | nil => rfl
  | cons f fs ih =>
    obtain ⟨g, v⟩ := f
    cases g <;> cases v <;>
      simp_all [specValidWells, List.filterMap_cons]

/-- C9 (amended): the point loader skips (does not abort on) every
feature whose value attribute is missing, non-numeric or non-finite —
and also every feature with empty geometry — includes every feature with
non-empty geometry and a finite numeric value, and fails with the
empty-dataset error exactly when zero valid points result. -/
theorem c9_load_wells_policy (tfm : ℚ × ℚ → ℚ × ℚ) (feats : List WellFeature) :
    loadWells tfm feats =
      if (specValidWells feats).isEmpty then
        Except.error "No valid well points with nitrate values were found."
      else
        Except.ok ((specValidWells feats).map (fun p => tfm p.1),
          (specValidWells feats).map Prod.snd) := by
  unfold loadWells
  rw [loadWells_picked]
  cases h : specValidWells feats with
  | nil => simp
  | cons a l =>
    simp [List.map_map, Function.comp_def]

/-- Counterexample to C9 as stated: a feature with an empty geometry but
a perfectly finite numeric value 5 is not included; with it as the only
feature the load fails even though, per the claim, one valid point
should have resulted. -/
theorem c9_load_wells_counterexample :
    (WellFeature.mk none (AttrVal.num 5)).nitr = AttrVal.num 5 ∧
    loadWells (fun p => p) [WellFeature.mk none (AttrVal.num 5)] =
      Except.error "No valid well points with nitrate values were found." :=
  ⟨rfl, rfl⟩

section ZonalMeansProofs

variable {α : Type} [LinearOrderedField α]

lemma validRow_filter (l : ℕ) (hl : l ≠ 0) :
    ∀ prs : List (Option α × ℕ),
      ((prs.filterMap (fun vl => match vl.1 with
          | some v => if vl.2 ≠ 0 then some (vl.2, v) else none
          | none => none)).filter (fun p => p.1 == l)).map Prod.snd
        = prs.filterMap (fun vl => if vl.2 = l then vl.1 else none)
  | [] => rfl
  | (v?, lab) :: prs => by
    have ih := validRow_filter l hl prs
    cases v? with
    | none => simpa [List.filterMap_cons] using ih
    | some v =>
      by_cases hlab : lab = 0
      · subst hlab
        simpa [List.filterMap_cons, Ne.symm hl] using ih
      · by_cases heq : lab = l
        · subst heq
          simpa [List.filterMap_cons, hlab, List.filter_cons] using ih
        · simpa [List.filterMap_cons, hlab, heq, List.filter_cons] using ih

lemma validCells_filter (raster : List (List (Option α)))
    (labels : List (List ℕ)) (l : ℕ) (hl : l ≠ 0) :
    ((validCells raster labels).filter (fun p => p.1 == l)).map Prod.snd
      = specLabelVals raster labels l := by
  unfold validCells specLabelVals
  generalize raster.zip labels = zs
  induction zs with
  | nil => rfl
  | cons rl zs ih =>
    simp only [List.flatMap_cons, List.filter_append, List.map_append, ih]
    rw [validRow_filter l hl]

/-- C4: the zonal aggregator maps each non-zero label having at least
one finite-valued cell to the arithmetic mean of the finite grid values
at that label's cells, and a label with zero finite-valued cells is
absent from the result (not an error, not zero). -/
theorem c4_zonal_means (raster : List (List (Option α)))
    (labels : List (List ℕ)) (l : ℕ) (hl : l ≠ 0) :
    zonalMeanOfLabel (validCells raster labels) l =
      (if (specLabelVals raster labels l).isEmpty then none
       else some ((specLabelVals raster labels l).sum /
         ((specLabelVals raster labels l).length : α))) := by
  unfold zonalMeanOfLabel
  rw [validCells_filter raster labels l hl]
  cases h : specLabelVals raster labels l with
  | nil => simp
  | cons a vs =>
    have hlen : (1:α) ≤ ((a :: vs).length : α) := by
      have : 1 ≤ (a :: vs).length := by simp
      exact_mod_cast this
    simp [max_eq_left hlen]

/-- Witness for C4 at a concrete input over `ℚ`: label 2 has finite
cells 1 and 3 (and one NaN cell), mean 2; the absent-label branch is
exercised by the `isEmpty` guard. -/
theorem c4_zonal_means_witness :
    (2 ≠ 0) ∧
    zonalMeanOfLabel (validCells [[some (1:ℚ), none], [some 3, some 4]]
        [[2, 2], [2, 0]]) 2 =
      (if (specLabelVals [[some (1:ℚ), none], [some 3, some 4]]
            [[2, 2], [2, 0]] 2).isEmpty then none
       else some ((specLabelVals [[some (1:ℚ), none], [some 3, some 4]]
            [[2, 2], [2, 0]] 2).sum /
         ((specLabelVals [[some (1:ℚ), none], [some 3, some 4]]
            [[2, 2], [2, 0]] 2).length : ℚ))) :=
  ⟨by decide, c4_zonal_means _ _ 2 (by decide)⟩

end ZonalMeansProofs

lemma burn_fold_all_false (pt : ℚ × ℚ) :
    ∀ (gs : List ((ℚ × ℚ) → Bool)) (n acc : ℕ),
      (∀ g ∈ gs, g pt = false) →
      ((List.enumFrom n gs).map (fun p => (p.2, p.1 + 1))).foldl
        (fun acc s => if s.1 pt then s.2 else acc) acc = acc
  | [], _, _, _ => rfl
  | g :: gs, n, acc, h => by
    have hg : g pt = false := h g (List.mem_cons_self g gs)
    have ih := burn_fold_all_false pt gs (n + 1) acc
      (fun g' hg' => h g' (List.mem_cons_of_mem g hg'))
    simp only [List.enumFrom, List.map_cons, List.foldl_cons, hg]
    simpa [hg] using ih

lemma burn_fold_last_true (pt : ℚ × ℚ) :
    ∀ (gs : List ((ℚ × ℚ) → Bool)) (i : ℕ) (hi : i < gs.length) (n acc : ℕ),
      (gs.get ⟨i, hi⟩) pt = true →
      (∀ (j : ℕ) (hj : j < gs.length), i < j → (gs.get ⟨j, hj⟩) pt = false) →
      ((List.enumFrom n gs).map (fun p => (p.2, p.1 + 1))).foldl
        (fun acc s => if s.1 pt then s.2 else acc) acc = n + i + 1
  | [], i, hi, _, _, _, _ => absurd hi (by simp)
  | g :: gs, 0, _, n, acc, hcov, hafter => by
    have hg : g pt = true := hcov
    have hrest : ∀ g' ∈ gs, g' pt = false := by
      intro g' hg'
      rcases List.mem_iff_get.mp hg' with ⟨⟨j, hj⟩, rfl⟩
      exact hafter (j + 1) (by simpa using Nat.succ_lt_succ hj) (Nat.succ_pos j)
    simp only [List.enumFrom, List.map_cons, List.foldl_cons, hg]
    simpa [hg] using burn_fold_all_false pt gs (n + 1) (n + 1) hrest
  | g :: gs, i + 1, hi, n, acc, hcov, hafter => by
    have hi2 : i < gs.length := by simpa using hi
    have hcov2 : (gs.get ⟨i, hi2⟩) pt = true := hcov
    have hafter2 : ∀ (j : ℕ) (hj : j < gs.length), i < j →
        (gs.get ⟨j, hj⟩) pt = false := by
      intro j hj hij
      exact hafter (j + 1) (by simpa using Nat.succ_lt_succ hj)
        (Nat.succ_lt_succ hij)
    have ih := burn_fold_last_true pt gs i hi2 (n + 1)
      (if g pt then n + 1 else acc) hcov2 hafter2
    simp only [List.enumFrom, List.map_cons, List.foldl_cons]
    calc ((List.enumFrom (n + 1) gs).map (fun p => (p.2, p.1 + 1))).foldl
          (fun acc s => if s.1 pt then s.2 else acc)
          (if g pt = true then n + 1 else acc)
        = n + 1 + i + 1 := ih
      _ = n + (i + 1) + 1 := by omega

/-- Burn semantics of the label rasterizer: a cell covered by no zone
keeps the fill label 0. -/
lemma rasterLabelAt_zero (geoms : List ((ℚ × ℚ) → Bool)) (pt : ℚ × ℚ)
    (h : ∀ g ∈ geoms, g pt = false) : rasterLabelAt geoms pt = 0 := by
  unfold rasterLabelAt rasterShapes
  exact burn_fold_all_false pt geoms 0 0 h

/-- Burn semantics of the label rasterizer: a cell covered by zone `i`
(0-based) and by no later zone gets label `i + 1`. -/
lemma rasterLabelAt_last (geoms : List ((ℚ × ℚ) → Bool)) (pt : ℚ × ℚ)
    (i : ℕ) (hi : i < geoms.length) (hcov : (geoms.get ⟨i, hi⟩) pt = true)
    (hafter : ∀ (j : ℕ) (hj : j < geoms.length), i < j →
      (geoms.get ⟨j, hj⟩) pt = false) :
    rasterLabelAt geoms pt = i + 1 := by
  unfold rasterLabelAt rasterShapes
  simpa using burn_fold_last_true pt geoms i hi 0 0 hcov hafter

lemma gridXs_getD (minx cell : ℚ) (w j : ℕ) (hj : j < w) :
    (gridXs minx cell w).getD j 0 = minx + ((j : ℚ) + 1 / 2) * cell := by
  have hlen : j < ((List.range w).map
      (fun j : ℕ => minx + ((j : ℚ) + 1 / 2) * cell)).length := by
    rw [List.length_map, List.length_range]; exact hj
  show ((List.range w).map (fun j : ℕ => minx + ((j : ℚ) + 1 / 2) * cell)).getD j 0 = _
  rw [List.getD_eq_getElem _ 0 hlen, List.getElem_map, List.getElem_range]

lemma gridYs_getD (maxy cell : ℚ) (h j : ℕ) (hj : j < h) :
    (gridYs maxy cell h).getD j 0 = maxy - ((j : ℚ) + 1 / 2) * cell := by
  have hlen : j < ((List.range h).map
      (fun i : ℕ => maxy - ((i : ℚ) + 1 / 2) * cell)).length := by
    rw [List.length_map, List.length_range]; exact hj
  show ((List.range h).map (fun i : ℕ => maxy - ((i : ℚ) + 1 / 2) * cell)).getD j 0 = _
  rw [List.getD_eq_getElem _ 0 hlen, List.getElem_map, List.getElem_range]

/-- C6 (amended): the zone rasterizer burns zone `i` (0-based collection
order) with label `i + 1`, cells outside every zone keep label 0, and its
pixel transform is anchored at (first cell center x minus half a cell,
first cell center y plus half a cell); provided the grid has at least two
columns (and at least one row) the pixel size equals `cell_size`, the
anchor is exactly `(minx, maxy)`, and every label-grid cell — in
particular cell (0,0) — coincides exactly with the corresponding
interpolation-grid cell.  (With a single column the code falls back to a
pixel size of 1.0 and the cells need not coincide.) -/
theorem c6_raster_alignment :
    (∀ (geoms : List ((ℚ × ℚ) → Bool)) (pt : ℚ × ℚ),
        (∀ g ∈ geoms, g pt = false) → rasterLabelAt geoms pt = 0) ∧
    (∀ (geoms : List ((ℚ × ℚ) → Bool)) (pt : ℚ × ℚ) (i : ℕ)
        (hi : i < geoms.length), (geoms.get ⟨i, hi⟩) pt = true →
        (∀ (j : ℕ) (hj : j < geoms.length), i < j →
          (geoms.get ⟨j, hj⟩) pt = false) →
        rasterLabelAt geoms pt = i + 1) ∧
    (∀ (minx maxy cell : ℚ) (w h : ℕ), 2 ≤ w → 1 ≤ h →
        rasterCellSize (gridXs minx cell w) = cell ∧
        rasterAnchor (gridXs minx cell w) (gridYs maxy cell h) = (minx, maxy) ∧
        (∀ r c : ℕ, labelCellBox (gridXs minx cell w) (gridYs maxy cell h) r c =
          interpCellBox minx maxy cell r c)) := by
  refine ⟨rasterLabelAt_zero, rasterLabelAt_last, ?_⟩
  intro minx maxy cell w h hw hh
  have hlen : 1 < (gridXs minx cell w).length := by
    simpa [gridXs] using hw
  have hcell : rasterCellSize (gridXs minx cell w) = cell := by
    unfold rasterCellSize
    rw [if_pos hlen, gridXs_getD minx cell w 1 (by omega),
      gridXs_getD minx cell w 0 (by omega)]
    push_cast
    ring
  have hanchor : rasterAnchor (gridXs minx cell w) (gridYs maxy cell h) =
      (minx, maxy) := by
    unfold rasterAnchor
    rw [hcell, gridXs_getD minx cell w 0 (by omega),
      gridYs_getD maxy cell h 0 (by omega)]
    simp only [Prod.mk.injEq]
    constructor <;> · push_cast; ring
  refine ⟨hcell, hanchor, ?_⟩
  intro r c
  unfold labelCellBox interpCellBox
  rw [hcell, hanchor]

/-- Witness for C6 (amended): an uncovered cell gets 0, a covered sole
zone gets label 1, and a 2-column grid with cell size 2 aligns exactly. -/
theorem c6_raster_alignment_witness :
    rasterLabelAt [fun _ => false] ((0:ℚ), (0:ℚ)) = 0 ∧
    rasterLabelAt [fun _ => true] ((0:ℚ), (0:ℚ)) = 0 + 1 ∧
    (rasterCellSize (gridXs 0 2 2) = 2 ∧
     rasterAnchor (gridXs 0 2 2) (gridYs 10 2 1) = (0, 10) ∧
     (∀ r c : ℕ, labelCellBox (gridXs 0 2 2) (gridYs 10 2 1) r c =
       interpCellBox 0 10 2 r c)) := by
  refine ⟨?_, ?_, ?_⟩
  · refine c6_raster_alignment.1 _ _ ?_
    intro g hg
    rcases List.mem_singleton.mp hg with rfl
    rfl
  · refine c6_raster_alignment.2.1 [fun _ => true] (0, 0) 0 (by simp) rfl ?_
    intro j hj hij
    simp only [List.length_singleton] at hj
    exact absurd hij (by omega)
  · exact c6_raster_alignment.2.2 0 10 2 2 1 (by norm_num) (by norm_num)

/-- Counterexample to C6 as stated: extent `[0,1] × [0,1]` with cell
size 3 yields a one-column grid; the rasterizer then falls back to a
pixel size of 1.0, and cell (0,0) of the label grid does not coincide
with the interpolation grid's top-left cell. -/
theorem c6_raster_alignment_counterexample :
    gridWidth 0 1 3 = 1 ∧ gridHeight 0 1 3 = 1 ∧
    labelCellBox (gridXs 0 3 1) (gridYs 1 3 1) 0 0 ≠ interpCellBox 0 1 3 0 0 := by
  refine ⟨?_, ?_, ?_⟩
  · norm_num [gridWidth, Int.ceil_le]
  · norm_num [gridHeight, Int.ceil_le]
  · intro hcontra
    have h1 : (labelCellBox (gridXs 0 3 1) (gridYs 1 3 1) 0 0).1 = 1 := by
      norm_num [labelCellBox, rasterAnchor, rasterCellSize, gridXs, gridYs,
        List.range_succ]
    have h2 : (interpCellBox (0:ℚ) 1 3 0 0).1 = 0 := by
      norm_num [interpCellBox]
    rw [hcontra, h2] at h1
    exact absurd h1 (by norm_num)

lemma lookupLast_no_match {β : Type} (g : String) :
    ∀ (l : List (String × β)) (a : Option β), (∀ q ∈ l, q.1 ≠ g) →
      l.foldl (fun acc p => if p.1 == g then some p.2 else acc) a = a
  | [], _, _ => rfl
  | p :: l, a, h => by
    have hp : (p.1 == g) = false :=
      beq_eq_false_iff_ne.mpr (h p (List.mem_cons_self p l))
    simp only [List.foldl_cons, hp, Bool.false_eq_true, if_false]
    exact lookupLast_no_match g l a
      (fun q hq => h q (List.mem_cons_of_mem p hq))

lemma lookupLast_eq_of_nodup {β : Type} :
    ∀ (l : List (String × β)) (t : String × β), t ∈ l →
      (l.map Prod.fst).Nodup → lookupLast l t.1 = some t.2
  | [], t, ht, _ => absurd ht (List.not_mem_nil t)
  | p :: l, t, ht, hnd => by
    have hnd2 : (l.map Prod.fst).Nodup := (List.nodup_cons.mp hnd).2
    have hp : p.1 ∉ l.map Prod.fst := (List.nodup_cons.mp hnd).1
    rcases List.mem_cons.mp ht with rfl | ht2
    · unfold lookupLast
      simp only [List.foldl_cons, beq_self_eq_true, if_true]
      exact lookupLast_no_match t.1 l (some t.2)
        (fun q hq hqe => hp (hqe ▸ List.mem_map_of_mem Prod.fst hq))
    · have hne : (p.1 == t.1) = false := by
        refine beq_eq_false_iff_ne.mpr ?_
        intro he
        exact hp (he ▸ List.mem_map_of_mem Prod.fst ht2)
      unfold lookupLast
      simp only [List.foldl_cons, hne, Bool.false_eq_true, if_false]
      exact lookupLast_eq_of_nodup l t ht2 hnd2

/-- With unique tract ids (the spec's Zone invariant), the `canrate`
column of the pipeline table is exactly the tracts' own rates in
collection order. -/
lemma pipelineRates_of_nodup (ctx : DatasetContext)
    (hnd : (ctx.tracts.map Tract.gid).Nodup) :
    pipelineRates ctx = ctx.tracts.map Tract.rate := by
  unfold pipelineRates
  refine List.map_congr_left ?_
  intro t ht
  have hkeys : ((ctx.tracts.map (fun u => (u.gid, u.rate))).map Prod.fst).Nodup := by
    rw [List.map_map]
    simpa [Function.comp_def] using hnd
  have := lookupLast_eq_of_nodup (ctx.tracts.map (fun u => (u.gid, u.rate)))
    (t.gid, t.rate) (List.mem_map_of_mem _ ht) hkeys
  simp only at this
  rw [this]
  rfl

/-- C8: for any parameter triple and fixed DatasetContext, running with
artifacts disabled returns exactly the run-with-artifacts result with the
three artifact handles removed — same display bounds, same regression
statistics — and the artifact run carries all three handles. -/
theorem c8_artifact_mode (tsf : ℕ → ℝ → ℝ) (tcrit : ℕ → ℝ)
    (ctx : DatasetContext) (k : ℝ) (m : ℕ) (cell : ℚ) :
    runPipeline tsf tcrit ctx k m cell false =
      (runPipeline tsf tcrit ctx k m cell true).map
        (fun r => { r with png := none, geojson := none, csv := none }) ∧
    (runPipeline tsf tcrit ctx k m cell true).map
        (fun r => (r.png.isSome, r.geojson.isSome, r.csv.isSome)) =
      (runPipeline tsf tcrit ctx k m cell true).map
        (fun _ => (true, true, true)) := by
  unfold runPipeline
  cases hw : ctx.wells.isEmpty
  · simp only [Bool.false_eq_true, if_false]
    cases smOLSStats tsf tcrit (pipelinePairs ctx k m cell) <;>
      simp [Except.map]
  · simp [Except.map]

/-- C7: unit inference scans the whole `canrate` column — all zones, not
only the regression pairs (with unique zone ids that column is the zones'
own rates); the classification is `Proportion`/100000 exactly when the
maximum finite rate is at most 1 (`Raw`/1 otherwise, including with no
finite rate at all); and the fitted statistics are exactly the statsmodels
fit of the pairs, untouched by the classification. -/
theorem c7_unit_inference (tsf : ℕ → ℝ → ℝ) (tcrit : ℕ → ℝ)
    (ctx : DatasetContext) (k : ℝ) (m : ℕ) (cell : ℚ) (w : Bool)
    (hw : ctx.wells.isEmpty = false)
    (hnd : (ctx.tracts.map Tract.gid).Nodup) :
    (runPipeline tsf tcrit ctx k m cell w).map
        (fun r => (r.rateUnits, r.rateScale)) =
      (runPipeline tsf tcrit ctx k m cell w).map
        (fun _ => inferUnits (ctx.tracts.map Tract.rate)) ∧
    (∀ (rates : List (Option ℚ)) (mx : ℚ), (rates.filterMap id).max? = some mx →
        inferUnits rates = if mx ≤ 1 then ("proportion", 100000) else ("raw", 1)) ∧
    (∀ rates : List (Option ℚ), (rates.filterMap id).max? = none →
        inferUnits rates = ("raw", 1)) ∧
    (runPipeline tsf tcrit ctx k m cell w).map PipelineResult.ols =
      (smOLSStats tsf tcrit (pipelinePairs ctx k m cell)).map id := by
  refine ⟨?_, ?_, ?_, ?_⟩
  · unfold runPipeline
    rw [hw, pipelineRates_of_nodup ctx hnd]
    simp only [Bool.false_eq_true, if_false]
    cases smOLSStats tsf tcrit (pipelinePairs ctx k m cell) <;>
      simp [Except.map]
  · intro rates mx hmx
    unfold inferUnits
    rw [hmx]
  · intro rates hmx
    unfold inferUnits
    rw [hmx]
  · unfold runPipeline
    rw [hw]
    simp only [Bool.false_eq_true, if_false]
    cases smOLSStats tsf tcrit (pipelinePairs ctx k m cell) <;>
      simp [Except.map]

/-- A small concrete dataset: one well of value 2, one tract `a` covering
everything, rate 1/2. -/
def ctxDemo : DatasetContext :=
  { wells := [(0, 0)], wellVals := [2],
    tracts := [{ gid := "a", covers := fun _ => true, rate := some (1/2) }],
    bounds := (0, 0, 1, 1), toLL := fun p => p }

/-- Witness for C7 at the concrete dataset `ctxDemo` (both hypotheses —
non-empty wells and unique zone ids — hold there). -/
theorem c7_unit_inference_witness :
    ctxDemo.wells.isEmpty = false ∧
    (ctxDemo.tracts.map Tract.gid).Nodup ∧
    (((runPipeline (fun _ _ => 0) (fun _ => 0) ctxDemo 1 1 1 true).map
        (fun r => (r.rateUnits, r.rateScale)) =
      (runPipeline (fun _ _ => 0) (fun _ => 0) ctxDemo 1 1 1 true).map
        (fun _ => inferUnits (ctxDemo.tracts.map Tract.rate))) ∧
    (∀ (rates : List (Option ℚ)) (mx : ℚ), (rates.filterMap id).max? = some mx →
        inferUnits rates = if mx ≤ 1 then ("proportion", 100000) else ("raw", 1)) ∧
    (∀ rates : List (Option ℚ), (rates.filterMap id).max? = none →
        inferUnits rates = ("raw", 1)) ∧
    ((runPipeline (fun _ _ => 0) (fun _ => 0) ctxDemo 1 1 1 true).map
        PipelineResult.ols =
      (smOLSStats (fun _ _ => 0) (fun _ => 0)
        (pipelinePairs ctxDemo 1 1 1)).map id)) := by
  refine ⟨rfl, by simp [ctxDemo], ?_⟩
  exact c7_unit_inference _ _ ctxDemo 1 1 1 true rfl (by simp [ctxDemo])

/-- A dataset on which no tract has an outcome rate: the regression input
is empty (`n = 0`). -/
def ctxNoRates : DatasetContext :=
  { wells := [(1, 1)], wellVals := [2],
    tracts := [{ gid := "t", covers := fun _ => false, rate := none }],
    bounds := (0, 0, 2, 2), toLL := fun p => p }

/-- C2 fails on `ProjectData.run_pipeline`: with `n = 0` paired zones the
code still calls `sm.OLS(...)` unconditionally and the statsmodels fit
raises, so the pipeline propagates an exception instead of returning a
NaN-filled RegressionResult.  With `n = 1` and a non-zero predictor,
`params[1]` raises instead.  The guarded `n_obs >= 2` branch of
`app.py`'s `api_run` — and the spec — return the degenerate result. -/
theorem c2_regression_degenerate_bug (tsf : ℕ → ℝ → ℝ) (tcrit : ℕ → ℝ) :
    pipelinePairs ctxNoRates 2 1 1 = [] ∧
    runPipeline tsf tcrit ctxNoRates 2 1 1 true =
      Except.error "ValueError: zero-size array to reduction operation" ∧
    smOLSStats tsf tcrit [((7:ℝ)/2, 1/5)] =
      Except.error "IndexError: index 1 is out of bounds" ∧
    apiRunCachedOls tsf tcrit [] =
      Except.ok ⟨none, none, none, none, none, none, 0⟩ := by
  have hpairs : pipelinePairs ctxNoRates 2 1 1 = [] := by
    unfold pipelinePairs pipelineRows
    rw [show pipelineRates ctxNoRates = [none] from rfl]
    cases h : lookupLast (pipelineMeans ctxNoRates 2 1 1) "t" <;>
      simp [ctxNoRates, h]
  refine ⟨hpairs, ?_, ?_, ?_⟩
  · unfold runPipeline
    rw [show ctxNoRates.wells.isEmpty = false from rfl, hpairs]
    rfl
  · show (if (7:ℝ)/2 = 0 then
        Except.ok (OLSStats.mk (some 0) (some (1/5)) none none none none 1)
      else Except.error "IndexError: index 1 is out of bounds") =
      Except.error "IndexError: index 1 is out of bounds"
    rw [if_neg (by norm_num : ¬((7:ℝ)/2 = 0))]
  · rfl
